import Mathlib

/-!
Verification of the `cb::ThreadPool` thread pool (src/src/thread_pool.h) via a
shallow embedding.  Pure data and the straight-line body of
`ThreadPool::ScheduleAndGetFuture` and `impl::FuncWrapper` are translated
directly from the header; the worker loop, `Wait` and the destructor live in a
`thread_pool.cc` that is not part of the repository snapshot, so those are
modelled from the specification (each such definition is marked
`Modelled from the spec:`).  Concurrency is modelled by an explicit small-step
command semantics over the pool state, with arbitrary interleavings of
producer and worker steps.
-/

namespace ThreadPoolSpec

/-! ## Result slot (the shared state of a `std::promise` / `std::future` pair)

`ScheduleAndGetFuture` allocates a `std::promise<ReturnT>` and hands its
future to the caller.  The shared state holds at most one value; it is never
written with an exception by this code base (no call to `set_exception`
appears anywhere in the source).  So the slot is a two-state cell. -/

/-- The shared state backing a promise/future pair: empty until the worker
writes the value, then permanently filled. -/
inductive Slot (V : Type) where
  | empty : Slot V
  | filled (v : V) : Slot V
  deriving DecidableEq, Repr

/-- Reading the slot: `none` means the shared state holds no value yet, so a
blocking read would block.  A filled slot always yields its value. -/
def Slot.read {V : Type} : Slot V → Option V
  | .empty => none
  | .filled v => some v

/-- Outcome of running a wrapped work item on a worker thread.  `raised e`
means an exception escaped the work item into the worker loop (the source
lambdas contain no try/catch); `alreadySatisfied` models
`std::promise::set_value` throwing `promise_already_satisfied` on a second
write. -/
inductive WrapOutcome (E : Type) where
  | normal : WrapOutcome E
  | raised (e : E) : WrapOutcome E
  | alreadySatisfied : WrapOutcome E
  deriving DecidableEq, Repr

/-- Embeds `impl::FuncWrapper<ReturnT>::GetWrapped` (thread_pool.h:146-162).
The returned lambda executes `promise->set_value(func(args...))`.  The
submitted callable is modelled as `func : Unit → Except E V` (it either
returns a value or raises).  If `func` raises, the exception propagates out
of the lambda — there is no try/catch and no `set_exception` in the source —
and the slot is left untouched.  If `func` returns `v`, `set_value` fills an
empty slot with `v`, and throws `promise_already_satisfied` on a filled one. -/
def FuncWrapper.getWrapped {E V : Type} (func : Unit → Except E V)
    (slot : Slot V) : WrapOutcome E × Slot V :=
  match func () with
  | .error e => (.raised e, slot)
  | .ok v =>
    match slot with
    | .empty => (.normal, .filled v)
    | .filled w => (.alreadySatisfied, .filled w)

/-- Embeds `impl::FuncWrapper<void>::GetWrapped` (thread_pool.h:165-176).
The returned lambda executes `func(args...); promise->set_value();`.  The
void-returning callable is modelled as a state transformer
`func : S → Except E S` (its effect on ambient state `S`, or a raised
exception).  After a normal run the slot is marked filled with `()`, the
distinct "no value produced" signal. -/
def FuncWrapperVoid.getWrapped {E S : Type} (func : S → Except E S)
    (st : S) (slot : Slot Unit) : WrapOutcome E × S × Slot Unit :=
  match func st with
  | .error e => (.raised e, st, slot)
  | .ok st2 =>
    match slot with
    | .empty => (.normal, st2, .filled ())
    | .filled w => (.alreadySatisfied, st2, .filled w)

/-! ## The `std::future` handle -/

/-- Result of `std::future::get`: the value, an immediate
`future_error(no_state)` on an invalid handle (libstdc++/libc++ behaviour;
the standard makes a member call on an invalid future undefined), or a block
on a not-yet-written slot. -/
inductive GetResult (V : Type) where
  | value (v : V) : GetResult V
  | noState : GetResult V
  | wouldBlock : GetResult V
  deriving DecidableEq, Repr

/-- The `std::future<ReturnT>` returned by `ScheduleAndGetFuture`
(thread_pool.h:191,205): a validity flag plus its view of the shared slot.
A freshly obtained future (`promise->get_future()`) has `valid = true`. -/
structure Future (V : Type) where
  valid : Bool
  slot : Slot V
  deriving DecidableEq, Repr

/-- Embeds `std::future::get`: on an invalid handle it fails with no-state;
on a valid handle it blocks until the slot is written, then returns the value
and invalidates the handle (the standard's postcondition of `get` is
`valid() == false`). -/
def Future.get {V : Type} : Future V → GetResult V × Future V
  | ⟨false, s⟩ => (.noState, ⟨false, s⟩)
  | ⟨true, .empty⟩ => (.wouldBlock, ⟨true, .empty⟩)
  | ⟨true, .filled v⟩ => (.value v, ⟨false, .filled v⟩)

/-! ## Pool state

The private fields of `cb::ThreadPool` (thread_pool.h:102-129), with field
names kept from the source.  Work items are identified by their submission
index (a ghost identity; the source item carries only an opaque
`std::function`).  `workers_` records the runtime status of each worker
thread; in the source it is a `std::vector<std::thread>` of fixed size
`num_workers_`. -/

/-- Runtime status of one worker thread: blocked in `condvar_.wait`,
executing a dequeued item, or returned from `ThreadLoop`. -/
inductive WorkerState where
  | waiting : WorkerState
  | executing (id : Nat) : WorkerState
  | exited : WorkerState
  deriving DecidableEq, Repr

/-- The fields of `cb::ThreadPool`: fixed worker count `num_workers_`, the
shutdown flag `exit_`, the FIFO work queue `work_` (list head = queue front),
and the worker threads `workers_`. -/
structure PoolCore where
  num_workers_ : Nat
  exit_ : Bool
  work_ : List Nat
  workers_ : List WorkerState
  deriving DecidableEq, Repr

/-- Condition-variable signals the pool emits: `notifyOne` is
`condvar_.notify_one()`, `notifyAll` is `condvar_.notify_all()`. -/
inductive Signal where
  | notifyOne : Signal
  | notifyAll : Signal
  deriving DecidableEq, Repr

/-- Number of workers blocked waiting on `condvar_`. -/
def countWaiting (ws : List WorkerState) : Nat :=
  ws.countP (fun st => match st with | .waiting => true | _ => false)

/-- Semantics of a condition-variable signal: `notify_one` wakes exactly one
blocked waiter when any are waiting (and no one otherwise); `notify_all`
wakes every blocked waiter. -/
def wokenBy (sig : Signal) (ws : List WorkerState) : Nat :=
  match sig with
  | .notifyOne => min 1 (countWaiting ws)
  | .notifyAll => countWaiting ws

/-- The internal actions of `ThreadPool::ScheduleAndGetFuture`, in program
order (thread_pool.h:180-206). -/
inductive Ev where
  | makePromise : Ev
  | getFuture : Ev
  | wrapFunc : Ev
  | enqueue : Ev
  | notifyOne : Ev
  deriving DecidableEq, Repr

/-- The future handle returned to the caller, at the pool level: a validity
flag and the identity of the result slot (= submission id) its shared state
belongs to. -/
structure FutureRef where
  valid : Bool
  slotId : Nat
  deriving DecidableEq, Repr

/-- Everything produced by one call to `ScheduleAndGetFuture`: the updated
pool, the returned future, the ordered internal actions, and the emitted
condition-variable signals. -/
structure SchedResult where
  pool : PoolCore
  future : FutureRef
  events : List Ev
  signals : List Signal
  deriving DecidableEq, Repr

/-- Embeds `ThreadPool::ScheduleAndGetFuture` (thread_pool.h:180-206) for the
submission with ghost id `id`:
`make_shared<promise>` (allocates slot `id`); `promise->get_future()` (binds
the returned handle to slot `id`); `GetWrapped` (the enqueued item's closure
writes slot `id`); push the `WorkItem` onto the back of `work_` under `mu_`;
`condvar_.notify_one()`; return the future. -/
def ThreadPool.scheduleAndGetFuture (s : PoolCore) (id : Nat) : SchedResult :=
  { pool := { s with work_ := s.work_ ++ [id] }
    future := { valid := true, slotId := id }
    events := [.makePromise, .getFuture, .wrapFunc, .enqueue, .notifyOne]
    signals := [.notifyOne] }

/-- Modelled from the spec: `ThreadPool::Schedule` (fire-and-forget
submission; declared at thread_pool.h:56, its body is in the repository's
missing `thread_pool.cc`).  Per spec §4.1/§6 it appends the wrapped action to
the queue and wakes one waiting worker (signal-one semantics). -/
def ThreadPool.schedule (s : PoolCore) (id : Nat) : PoolCore × List Signal :=
  ({ s with work_ := s.work_ ++ [id] }, [.notifyOne])

/-! ## Interleaved small-step semantics

Producers and the `N` workers run concurrently; we model an execution as an
arbitrary sequence of atomic operations, each of which holds `mu_`.  The
worker-side operations come from the spec's worker-loop state machine
(§4.2), because `ThreadLoop` is in the missing `thread_pool.cc`. -/

/-- One atomic operation of the system: a producer submission, a worker
dequeue (`take`), a worker finishing its item (`finish`), the destructor
setting the shutdown flag (`setExit`), or a worker observing shutdown with an
empty queue and exiting (`exitWorker`). -/
inductive Op where
  | schedule (id : Nat) : Op
  | take (w : Nat) : Op
  | finish (w : Nat) : Op
  | setExit : Op
  | exitWorker (w : Nat) : Op
  deriving DecidableEq, Repr

/-- System state: the pool plus ghost logs of submission order, dequeue
order and completion order (each a list of item ids, oldest first). -/
structure SysState where
  pool : PoolCore
  scheduled : List Nat
  dequeued : List Nat
  executed : List Nat
  deriving DecidableEq, Repr

/-- Ids currently being executed by some worker (the in-flight items). -/
def execIds (ws : List WorkerState) : List Nat :=
  ws.filterMap (fun st => match st with | .executing id => some id | _ => none)

/-- Apply one atomic operation; `none` when the operation is not enabled.
`schedule` follows the source's `ScheduleAndGetFuture` (enqueue at the back;
submissions after teardown began are caller errors, spec §4.1/§7, so they are
not enabled).  `take`, `finish` and `exitWorker` are modelled from the spec's
worker loop (§4.2): dequeue from the front, run the item, exit once the
shutdown flag is observed with an empty queue. -/
def applyOp (s : SysState) : Op → Option SysState
  | .schedule id =>
    if s.pool.exit_ then none
    else some { s with
      pool := (ThreadPool.scheduleAndGetFuture s.pool id).pool
      scheduled := s.scheduled ++ [id] }
  | .take w =>
    match s.pool.workers_[w]?, s.pool.work_ with
    | some .waiting, id :: rest =>
      some { s with
        pool := { s.pool with
          work_ := rest
          workers_ := s.pool.workers_.set w (.executing id) }
        dequeued := s.dequeued ++ [id] }
    | _, _ => none
  | .finish w =>
    match s.pool.workers_[w]? with
    | some (.executing id) =>
      some { s with
        pool := { s.pool with workers_ := s.pool.workers_.set w .waiting }
        executed := s.executed ++ [id] }
    | _ => none
  | .setExit => some { s with pool := { s.pool with exit_ := true } }
  | .exitWorker w =>
    if s.pool.exit_ then
      match s.pool.workers_[w]?, s.pool.work_ with
      | some .waiting, [] =>
        some { s with
          pool := { s.pool with workers_ := s.pool.workers_.set w .exited } }
      | _, _ => none
    else none

/-- Run a sequence of atomic operations from a state. -/
def run (s : SysState) : List Op → Option SysState
  | [] => some s
  | op :: ops => (applyOp s op).bind (fun s2 => run s2 ops)

/-- The state right after `ThreadPool::ThreadPool(n)`: `n` worker threads,
all blocked waiting for work, empty queue, shutdown flag clear. -/
def initState (n : Nat) : SysState :=
  { pool := { num_workers_ := n, exit_ := false, work_ := [],
              workers_ := List.replicate n .waiting }
    scheduled := [], dequeued := [], executed := [] }

/-- Modelled from the spec: the return condition of `ThreadPool::Wait`
(declared at thread_pool.h:94, body in the missing `thread_pool.cc`).  Per
spec §4.4, `Wait` blocks the caller until the queue is empty and no worker is
currently executing an item. -/
def waitReturnable (p : PoolCore) : Prop :=
  p.work_ = [] ∧ execIds p.workers_ = []

instance (p : PoolCore) : Decidable (waitReturnable p) := by
  unfold waitReturnable; infer_instance

/-- Modelled from the spec: the first half of the `~ThreadPool` destructor
(declared at thread_pool.h:46, body in the missing `thread_pool.cc`; per its
field comment, thread_pool.h:108-109, it "sets `exit_` to true and then
notifues all workers").  It flips the shutdown flag and broadcasts on
`condvar_`. -/
def destructorBegin (p : PoolCore) : PoolCore × List Signal :=
  ({ p with exit_ := true }, [.notifyAll])

/-- Modelled from the spec: the join loop of `~ThreadPool` returns once
every worker thread has exited. -/
def joinReturnable (p : PoolCore) : Prop :=
  ∀ st ∈ p.workers_, st = WorkerState.exited

instance (p : PoolCore) : Decidable (joinReturnable p) := by
  unfold joinReturnable; infer_instance

/-- Number of workers that have not exited. -/
def countLive (ws : List WorkerState) : Nat :=
  ws.countP (fun st => match st with | .exited => false | _ => true)

/-- Termination measure for draining a shut-down pool: live workers, plus
two units per queued item, plus one per in-flight item. -/
def poolMeasure (s : SysState) : Nat :=
  countLive s.pool.workers_ + 2 * s.pool.work_.length
    + (execIds s.pool.workers_).length

/-! ## Invariants of the step semantics -/

/-- The dequeue log followed by the remaining queue is exactly the
submission log: dequeuing is FIFO. -/
def Inv1 (s : SysState) : Prop :=
  s.dequeued ++ s.pool.work_ = s.scheduled

/-- Every submitted id is accounted for exactly once: completed, in flight,
or still queued. -/
def Inv2 (s : SysState) : Prop :=
  (s.executed ++ (execIds s.pool.workers_ ++ s.pool.work_)).Perm s.scheduled

/-! ## Concrete executions used to witness the theorems below -/

/-- A concrete two-submission execution on a one-worker pool: both items are
submitted, then the single worker dequeues and runs each in turn. -/
def demoDrainOps : List Op :=
  [.schedule 0, .schedule 1, .take 0, .finish 0, .take 0, .finish 0]

/-- The state reached by `demoDrainOps` from a fresh one-worker pool. -/
def demoDrainFinal : SysState :=
  { pool := { num_workers_ := 1, exit_ := false, work_ := [],
              workers_ := [.waiting] }
    scheduled := [0, 1], dequeued := [0, 1], executed := [0, 1] }

/-- A concrete interleaving on a two-worker pool in which the second
submission is dequeued while the first is still in flight. -/
def demoFifoOps : List Op :=
  [.schedule 5, .take 0, .schedule 7, .schedule 9, .take 1, .finish 1]

/-- The state reached by `demoFifoOps` from a fresh two-worker pool. -/
def demoFifoFinal : SysState :=
  { pool := { num_workers_ := 2, exit_ := false, work_ := [9],
              workers_ := [.executing 5, .waiting] }
    scheduled := [5, 7, 9], dequeued := [5, 7], executed := [7] }

/-- A pool mid-teardown: shutdown flag set, one item still queued, one
worker mid-execution, one waiting, one already gone. -/
def demoTeardownState : SysState :=
  { pool := { num_workers_ := 3, exit_ := true, work_ := [4],
              workers_ := [.executing 2, .waiting, .exited] }
    scheduled := [2, 4], dequeued := [2], executed := [] }

theorem countP_set_eq (p : WorkerState → Bool) (ws : List WorkerState)
    (w : Nat) (st st' : WorkerState) (h : ws[w]? = some st) :
    (ws.set w st').countP p + (if p st then 1 else 0)
      = ws.countP p + (if p st' then 1 else 0) := by
  induction ws generalizing w with
  | nil => simp at h
  | cons a t ih =>
    cases w with
    | zero =>
      simp only [List.getElem?_cons_zero, List.getElem?_cons_succ, Option.some.injEq] at h
      cases h
      simp only [List.set, List.countP_cons]
      omega
    | succ w =>
      simp only [List.getElem?_cons_zero, List.getElem?_cons_succ, Option.some.injEq] at h
      have := ih w h
      simp only [List.set, List.countP_cons]
      omega

theorem execIds_cons (a : WorkerState) (t : List WorkerState) :
    execIds (a :: t)
      = (match a with | .executing id => some id | _ => none).toList
          ++ execIds t := by
  cases a <;> simp [execIds, List.filterMap_cons]

theorem execIds_set_executing (ws : List WorkerState) (w id : Nat)
    (h : ws[w]? = some .waiting) :
    (execIds (ws.set w (.executing id))).Perm (id :: execIds ws) := by
  induction ws generalizing w with
  | nil => simp at h
  | cons a t ih =>
    cases w with
    | zero =>
      simp only [List.getElem?_cons_zero, List.getElem?_cons_succ, Option.some.injEq] at h
      cases h
      simp [List.set, execIds_cons]
    | succ w =>
      simp only [List.getElem?_cons_zero, List.getElem?_cons_succ, Option.some.injEq] at h
      have hp := ih w h
      rw [List.set]
      rw [execIds_cons, execIds_cons]
      cases a with
      | waiting => simpa using hp
      | exited => simpa using hp
      | executing j =>
        simp only [Option.toList, List.singleton_append]
        exact (hp.cons j).trans (List.Perm.swap id j _)

theorem execIds_set_waiting (ws : List WorkerState) (w id : Nat)
    (h : ws[w]? = some (.executing id)) :
    (execIds ws).Perm (id :: execIds (ws.set w .waiting)) := by
  induction ws generalizing w with
  | nil => simp at h
  | cons a t ih =>
    cases w with
    | zero =>
      simp only [List.getElem?_cons_zero, List.getElem?_cons_succ, Option.some.injEq] at h
      cases h
      simp [List.set, execIds_cons]
    | succ w =>
      simp only [List.getElem?_cons_zero, List.getElem?_cons_succ, Option.some.injEq] at h
      have hp := ih w h
      rw [List.set]
      rw [execIds_cons, execIds_cons]
      cases a with
      | waiting => simpa using hp
      | exited => simpa using hp
      | executing j =>
        simp only [Option.toList, List.singleton_append]
        exact (hp.cons j).trans (List.Perm.swap id j _)

theorem execIds_set_exited (ws : List WorkerState) (w : Nat)
    (h : ws[w]? = some .waiting) :
    execIds (ws.set w .exited) = execIds ws := by
  induction ws generalizing w with
  | nil => simp at h
  | cons a t ih =>
    cases w with
    | zero =>
      simp only [List.getElem?_cons_zero, List.getElem?_cons_succ, Option.some.injEq] at h
      cases h
      simp [List.set, execIds_cons]
    | succ w =>
      simp only [List.getElem?_cons_zero, List.getElem?_cons_succ, Option.some.injEq] at h
      rw [List.set, execIds_cons, execIds_cons, ih w h]

theorem inv1_step (s s2 : SysState) (op : Op) (happ : applyOp s op = some s2)
    (h : Inv1 s) : Inv1 s2 := by
  unfold Inv1 at h ⊢
  cases op with
  | schedule id =>
    by_cases hx : s.pool.exit_ <;>
      simp [applyOp, hx, ThreadPool.scheduleAndGetFuture] at happ
    cases happ
    simp [ThreadPool.scheduleAndGetFuture, ← h, List.append_assoc]
  | take w =>
    rcases hw : s.pool.workers_[w]? with _ | st
    · simp [applyOp, hw] at happ
    rcases st with _ | id | _ <;>
      rcases hq : s.pool.work_ with _ | ⟨id0, rest⟩ <;>
      simp [applyOp, hw, hq] at happ
    cases happ
    rw [hq] at h
    simp [← h, List.append_assoc]
  | finish w =>
    rcases hw : s.pool.workers_[w]? with _ | st
    · simp [applyOp, hw] at happ
    rcases st with _ | id | _ <;> simp [applyOp, hw] at happ
    cases happ
    simpa using h
  | setExit =>
    simp [applyOp] at happ
    cases happ
    simpa using h
  | exitWorker w =>
    by_cases hx : s.pool.exit_ <;> simp [applyOp, hx] at happ
    rcases hw : s.pool.workers_[w]? with _ | st
    · simp [hw] at happ
    rcases st with _ | id | _ <;>
      rcases hq : s.pool.work_ with _ | ⟨id0, rest⟩ <;>
      simp [hw, hq] at happ
    cases happ
    rw [hq] at h
    simpa using h

theorem inv2_step (s s2 : SysState) (op : Op) (happ : applyOp s op = some s2)
    (h : Inv2 s) : Inv2 s2 := by
  unfold Inv2 at h ⊢
  cases op with
  | schedule id =>
    by_cases hx : s.pool.exit_ <;>
      simp [applyOp, hx, ThreadPool.scheduleAndGetFuture] at happ
    cases happ
    simp only [ThreadPool.scheduleAndGetFuture]
    refine List.Perm.trans ?_ (h.append_right [id])
    simp [List.append_assoc]
  | take w =>
    rcases hw : s.pool.workers_[w]? with _ | st
    · simp [applyOp, hw] at happ
    rcases st with _ | id | _ <;>
      rcases hq : s.pool.work_ with _ | ⟨id0, rest⟩ <;>
      simp [applyOp, hw, hq] at happ
    cases happ
    rw [hq] at h
    have hx := execIds_set_executing s.pool.workers_ w id0 hw
    have p1 : (execIds (s.pool.workers_.set w (.executing id0)) ++ rest).Perm
        (id0 :: (execIds s.pool.workers_ ++ rest)) := hx.append_right rest
    have p2 : (execIds s.pool.workers_ ++ id0 :: rest).Perm
        (id0 :: (execIds s.pool.workers_ ++ rest)) := List.perm_middle
    exact ((p1.trans p2.symm).append_left s.executed).trans h
  | finish w =>
    rcases hw : s.pool.workers_[w]? with _ | st
    · simp [applyOp, hw] at happ
    rcases st with _ | id | _ <;> simp [applyOp, hw] at happ
    cases happ
    have hx := execIds_set_waiting s.pool.workers_ w id hw
    have heq : (s.executed ++ [id])
        ++ (execIds (s.pool.workers_.set w .waiting) ++ s.pool.work_)
        = s.executed
          ++ ((id :: execIds (s.pool.workers_.set w .waiting))
              ++ s.pool.work_) := by
      simp [List.append_assoc]
    rw [heq]
    have p1 : ((id :: execIds (s.pool.workers_.set w .waiting))
        ++ s.pool.work_).Perm (execIds s.pool.workers_ ++ s.pool.work_) :=
      hx.symm.append_right s.pool.work_
    exact (p1.append_left s.executed).trans h
  | setExit =>
    simp [applyOp] at happ
    cases happ
    simpa using h
  | exitWorker w =>
    by_cases hx : s.pool.exit_ <;> simp [applyOp, hx] at happ
    rcases hw : s.pool.workers_[w]? with _ | st
    · simp [hw] at happ
    rcases st with _ | id | _ <;>
      rcases hq : s.pool.work_ with _ | ⟨id0, rest⟩ <;>
      simp [hw, hq] at happ
    cases happ
    rw [hq] at h
    rw [execIds_set_exited s.pool.workers_ w hw]
    simpa using h

theorem inv1_run (s s2 : SysState) (ops : List Op)
    (hrun : run s ops = some s2) (h : Inv1 s) : Inv1 s2 := by
  induction ops generalizing s with
  | nil => simp [run] at hrun; cases hrun; exact h
  | cons op rest ih =>
    rcases happ : applyOp s op with _ | s1
    · simp [run, happ] at hrun
    rw [run, happ] at hrun
    exact ih s1 hrun (inv1_step s s1 op happ h)

theorem inv2_run (s s2 : SysState) (ops : List Op)
    (hrun : run s ops = some s2) (h : Inv2 s) : Inv2 s2 := by
  induction ops generalizing s with
  | nil => simp [run] at hrun; cases hrun; exact h
  | cons op rest ih =>
    rcases happ : applyOp s op with _ | s1
    · simp [run, happ] at hrun
    rw [run, happ] at hrun
    exact ih s1 hrun (inv2_step s s1 op happ h)

theorem inv1_init (n : Nat) : Inv1 (initState n) := by
  simp [Inv1, initState]

theorem inv2_init (n : Nat) : Inv2 (initState n) := by
  simp [Inv2, initState, execIds, List.filterMap_replicate]

/-! ## Progress of teardown: a shut-down pool can always drain and exit -/

theorem countLive_set_executing (ws : List WorkerState) (w id : Nat)
    (h : ws[w]? = some .waiting) :
    countLive (ws.set w (.executing id)) = countLive ws := by
  have := countP_set_eq
    (fun st => match st with | .exited => false | _ => true)
    ws w .waiting (.executing id) h
  unfold countLive
  simp at this
  omega

theorem countLive_set_waiting (ws : List WorkerState) (w id : Nat)
    (h : ws[w]? = some (.executing id)) :
    countLive (ws.set w .waiting) = countLive ws := by
  have := countP_set_eq
    (fun st => match st with | .exited => false | _ => true)
    ws w (.executing id) .waiting h
  unfold countLive
  simp at this
  omega

theorem countLive_set_exited (ws : List WorkerState) (w : Nat)
    (h : ws[w]? = some .waiting) :
    countLive (ws.set w .exited) + 1 = countLive ws := by
  have := countP_set_eq
    (fun st => match st with | .exited => false | _ => true)
    ws w .waiting .exited h
  unfold countLive
  simp at this
  omega

theorem countLive_pos_of_not_join (p : PoolCore) (h : ¬ joinReturnable p) :
    0 < countLive p.workers_ := by
  unfold joinReturnable at h
  push_neg at h
  obtain ⟨st, hmem, hne⟩ := h
  refine List.countP_pos_iff.mpr ⟨st, hmem, ?_⟩
  cases st <;> simp_all

/-- Once the shutdown flag is set, the system can always continue — workers
finish their items, drain the queue, and exit — until the destructor's join
can return: every worker thread has exited. -/
theorem drain_progress (n : Nat) (s : SysState) (hm : poolMeasure s ≤ n)
    (hx : s.pool.exit_ = true) :
    ∃ ops s2, run s ops = some s2 ∧ joinReturnable s2.pool := by
  induction n generalizing s with
  | zero =>
    by_cases hj : joinReturnable s.pool
    · exact ⟨[], s, rfl, hj⟩
    · have := countLive_pos_of_not_join s.pool hj
      unfold poolMeasure at hm
      omega
  | succ n ih =>
    by_cases hj : joinReturnable s.pool
    · exact ⟨[], s, rfl, hj⟩
    · have hlive := countLive_pos_of_not_join s.pool hj
      unfold joinReturnable at hj
      push_neg at hj
      obtain ⟨st, hmem, hne⟩ := hj
      obtain ⟨w, hw⟩ := List.mem_iff_getElem?.mp hmem
      cases st with
      | exited => exact absurd rfl hne
      | executing id =>
        have happ : applyOp s (.finish w) = some { s with
            pool := { s.pool with workers_ := s.pool.workers_.set w .waiting }
            executed := s.executed ++ [id] } := by
          simp [applyOp, hw]
        have hlen : (execIds s.pool.workers_).length
            = (execIds (s.pool.workers_.set w .waiting)).length + 1 := by
          have := (execIds_set_waiting s.pool.workers_ w id hw).length_eq
          simpa using this
        have hcl := countLive_set_waiting s.pool.workers_ w id hw
        have hm2 : poolMeasure { s with
            pool := { s.pool with workers_ := s.pool.workers_.set w .waiting }
            executed := s.executed ++ [id] } ≤ n := by
          unfold poolMeasure at hm ⊢
          simp only at hm ⊢
          omega
        obtain ⟨ops, s2, hrun2, hj2⟩ := ih _ hm2 hx
        exact ⟨.finish w :: ops, s2, by rw [run, happ]; exact hrun2, hj2⟩
      | waiting =>
        rcases hq : s.pool.work_ with _ | ⟨id0, rest⟩
        · have happ : applyOp s (.exitWorker w) = some { s with
              pool := { s.pool with
                workers_ := s.pool.workers_.set w .exited } } := by
            simp [applyOp, hx, hw, hq]
          have hcl := countLive_set_exited s.pool.workers_ w hw
          have hxi := execIds_set_exited s.pool.workers_ w hw
          have hm2 : poolMeasure { s with
              pool := { s.pool with
                workers_ := s.pool.workers_.set w .exited } } ≤ n := by
            unfold poolMeasure at hm ⊢
            simp only [hxi] at hm ⊢
            omega
          obtain ⟨ops, s2, hrun2, hj2⟩ := ih _ hm2 hx
          exact ⟨.exitWorker w :: ops, s2, by rw [run, happ]; exact hrun2, hj2⟩
        · have happ : applyOp s (.take w) = some { s with
              pool := { s.pool with
                work_ := rest
                workers_ := s.pool.workers_.set w (.executing id0) }
              dequeued := s.dequeued ++ [id0] } := by
            simp [applyOp, hw, hq]
          have hlen : (execIds (s.pool.workers_.set w
              (.executing id0))).length
              = (execIds s.pool.workers_).length + 1 := by
            have := (execIds_set_executing s.pool.workers_ w id0 hw).length_eq
            simpa using this
          have hcl := countLive_set_executing s.pool.workers_ w id0 hw
          have hm2 : poolMeasure { s with
              pool := { s.pool with
                work_ := rest
                workers_ := s.pool.workers_.set w (.executing id0) }
              dequeued := s.dequeued ++ [id0] } ≤ n := by
            unfold poolMeasure at hm ⊢
            simp only [hq, List.length_cons] at hm ⊢
            omega
          obtain ⟨ops, s2, hrun2, hj2⟩ := ih _ hm2 hx
          exact ⟨.take w :: ops, s2, by rw [run, happ]; exact hrun2, hj2⟩

/-! ## Claim theorems -/

/-- Claim C1, as stated, is false: a failure raised by a result-bearing
function is NOT captured by the pool.  The wrapped work item produced by
`impl::FuncWrapper::GetWrapped` has no try/catch and never calls
`set_exception`, so at the concrete input `fun _ => error 3` the exception
propagates out of the work item into the worker thread, and the result slot
is left unwritten — a subsequent blocking `Get()` on it would block, not
re-surface the failure. -/
theorem c1_failure_escapes_wrapper_cex :
    (FuncWrapper.getWrapped (fun _ => (Except.error 3 : Except Nat Nat))
      Slot.empty).1 = WrapOutcome.raised 3 ∧
    (FuncWrapper.getWrapped (fun _ => (Except.error 3 : Except Nat Nat))
      Slot.empty).2 = Slot.empty ∧
    Slot.read (FuncWrapper.getWrapped
      (fun _ => (Except.error 3 : Except Nat Nat)) Slot.empty).2 = none :=
  ⟨rfl, rfl, rfl⟩

/-- Claim C1, amended: for every result-bearing submission whose function
raises while executing on a worker, the failure is NOT captured into the
result slot — the wrapped work item re-raises it into the worker loop, the
slot is left exactly as it was (unwritten, so a later `Get()` blocks rather
than observing the failure), and likewise for the void specialization. -/
theorem c1_failure_propagates_uncaught {E E2 V S : Type}
    (func : Unit → Except E V) (e : E) (hf : func () = Except.error e)
    (slot : Slot V)
    (eff : S → Except E2 S) (e2 : E2) (st : S)
    (he : eff st = Except.error e2) (uslot : Slot Unit) :
    FuncWrapper.getWrapped func slot = (WrapOutcome.raised e, slot) ∧
    Slot.read (FuncWrapper.getWrapped func Slot.empty).2 = none ∧
    FuncWrapperVoid.getWrapped eff st uslot
      = (WrapOutcome.raised e2, st, uslot) := by
  refine ⟨?_, ?_, ?_⟩ <;>
    simp [FuncWrapper.getWrapped, FuncWrapperVoid.getWrapped, hf, he,
      Slot.read]

/-- Witness for C1's amended theorem at a concrete raising function. -/
theorem c1_failure_propagates_uncaught_witness :
    FuncWrapper.getWrapped (fun _ => (Except.error 8 : Except Nat Nat))
      (Slot.filled 1) = (WrapOutcome.raised 8, Slot.filled 1) ∧
    Slot.read (FuncWrapper.getWrapped
      (fun _ => (Except.error 8 : Except Nat Nat)) Slot.empty).2 = none ∧
    FuncWrapperVoid.getWrapped
      (fun _ => (Except.error true : Except Bool Nat)) 0 Slot.empty
      = (WrapOutcome.raised true, 0, Slot.empty) :=
  c1_failure_propagates_uncaught (fun _ => Except.error 8) 8 rfl
    (Slot.filled 1) (fun _ => Except.error true) true 0 rfl Slot.empty

/-- Claim C2, as stated, is false: at the concrete value 7, the first
`Get()` on the handle returns 7, but the call invalidates the `std::future`
(postcondition `valid() == false`), so a repeated `Get()` does not return
the same value again — it finds no shared state. -/
theorem c2_repeated_get_cex :
    (Future.get (⟨true, Slot.filled 7⟩ : Future Nat)).1
      = GetResult.value 7 ∧
    (Future.get (Future.get (⟨true, Slot.filled 7⟩ : Future Nat)).2).1
      = GetResult.noState ∧
    GetResult.noState ≠ GetResult.value 7 := by
  refine ⟨rfl, rfl, ?_⟩
  decide

/-- Claim C2, amended: once the result slot has been written with `v`, a
call to `Get()` on the still-valid handle returns `v` immediately (it does
not block), and the slot itself permanently holds `v` — rereading the slot
yields the same `v`.  But `std::future` is a single-read handle: `get`
invalidates it, so a second `Get()` through the handle reports no-state
instead of returning `v` again. -/
theorem c2_get_returns_written_value {V : Type} (v : V) :
    Future.get (⟨true, Slot.filled v⟩ : Future V)
      = (GetResult.value v, ⟨false, Slot.filled v⟩) ∧
    (Future.get (⟨true, Slot.filled v⟩ : Future V)).1
      ≠ GetResult.wouldBlock ∧
    Slot.read (Slot.filled v) = some v ∧
    (Future.get (Future.get (⟨true, Slot.filled v⟩ : Future V)).2).1
      = GetResult.noState := by
  refine ⟨rfl, ?_, rfl, rfl⟩
  simp [Future.get]

/-- Claim C3: for every worker count and every execution of submissions
interleaved with worker steps, whenever `Wait()` can return — the queue is
empty and no worker is executing — the completed items are exactly the
submitted ones: with distinct submissions, each submitted action has been
executed exactly once. -/
theorem c3_wait_all_executed_once (n : Nat) (ops : List Op) (s : SysState)
    (hrun : run (initState n) ops = some s)
    (hwait : waitReturnable s.pool) :
    s.executed.Perm s.scheduled ∧
    (s.scheduled.Nodup → ∀ id ∈ s.scheduled, s.executed.count id = 1) := by
  have h2 := inv2_run (initState n) s ops hrun (inv2_init n)
  unfold Inv2 at h2
  obtain ⟨hq, hxs⟩ := hwait
  rw [hq, hxs] at h2
  simp only [List.append_nil] at h2
  refine ⟨h2, fun hnd id hid => ?_⟩
  rw [h2.count_eq id]
  exact List.count_eq_one_of_mem hnd hid

/-- Witness for C3 on a concrete one-worker execution of two submissions. -/
theorem c3_wait_all_executed_once_witness :
    demoDrainFinal.executed.Perm demoDrainFinal.scheduled ∧
    (demoDrainFinal.scheduled.Nodup →
      ∀ id ∈ demoDrainFinal.scheduled,
        demoDrainFinal.executed.count id = 1) :=
  c3_wait_all_executed_once 1 demoDrainOps demoDrainFinal (by decide)
    (by decide)

/-- Claim C4: work items are dequeued in FIFO order — in every reachable
state, the sequence of ids dequeued so far, followed by the queue contents,
is exactly the submission sequence; in particular the k-th dequeued item is
the k-th submitted item. -/
theorem c4_dequeue_fifo (n : Nat) (ops : List Op) (s : SysState)
    (hrun : run (initState n) ops = some s) :
    s.dequeued ++ s.pool.work_ = s.scheduled ∧
    s.dequeued = s.scheduled.take s.dequeued.length := by
  have h1 := inv1_run (initState n) s ops hrun (inv1_init n)
  unfold Inv1 at h1
  refine ⟨h1, ?_⟩
  rw [← h1, List.take_left]

/-- Witness for C4 on a concrete two-worker interleaving in which
completion order differs from submission order. -/
theorem c4_dequeue_fifo_witness :
    demoFifoFinal.dequeued ++ demoFifoFinal.pool.work_
      = demoFifoFinal.scheduled ∧
    demoFifoFinal.dequeued
      = demoFifoFinal.scheduled.take demoFifoFinal.dequeued.length :=
  c4_dequeue_fifo 2 demoFifoOps demoFifoFinal (by decide)

/-- Claim C5: teardown sets the shutdown flag `exit_` without touching the
queue, emits a single broadcast that wakes every worker blocked on the
queue, and its join phase can return only when every worker thread has
exited; moreover from any state with the flag set the workers can always
drain the queue and exit, so the join is reachable. -/
theorem c5_teardown_shutdown_join (p : PoolCore) (t : SysState)
    (hx : t.pool.exit_ = true) :
    (destructorBegin p).1.exit_ = true ∧
    (destructorBegin p).1.work_ = p.work_ ∧
    (destructorBegin p).1.workers_ = p.workers_ ∧
    (destructorBegin p).2 = [Signal.notifyAll] ∧
    wokenBy Signal.notifyAll p.workers_ = countWaiting p.workers_ ∧
    (joinReturnable (destructorBegin p).1 ↔
      ∀ st ∈ p.workers_, st = WorkerState.exited) ∧
    (∃ ops t2, run t ops = some t2 ∧ joinReturnable t2.pool) :=
  ⟨rfl, rfl, rfl, rfl, rfl, Iff.rfl,
    drain_progress (poolMeasure t) t le_rfl hx⟩

/-- Witness for C5 at a concrete pool mid-teardown. -/
theorem c5_teardown_shutdown_join_witness :
    (destructorBegin demoTeardownState.pool).1.exit_ = true ∧
    (destructorBegin demoTeardownState.pool).1.work_
      = demoTeardownState.pool.work_ ∧
    (destructorBegin demoTeardownState.pool).1.workers_
      = demoTeardownState.pool.workers_ ∧
    (destructorBegin demoTeardownState.pool).2 = [Signal.notifyAll] ∧
    wokenBy Signal.notifyAll demoTeardownState.pool.workers_
      = countWaiting demoTeardownState.pool.workers_ ∧
    (joinReturnable (destructorBegin demoTeardownState.pool).1 ↔
      ∀ st ∈ demoTeardownState.pool.workers_,
        st = WorkerState.exited) ∧
    (∃ ops t2, run demoTeardownState ops = some t2 ∧
      joinReturnable t2.pool) :=
  c5_teardown_shutdown_join demoTeardownState.pool demoTeardownState rfl

/-- Claim C6: every enqueue — `ScheduleAndGetFuture` and the fire-and-forget
`Schedule` alike — emits exactly one `notify_one` signal, which wakes exactly
one blocked worker when at least one is waiting and can never wake more than
one; it is not the broadcast `notify_all`. -/
theorem c6_enqueue_wakes_one (s : PoolCore) (id : Nat)
    (ws : List WorkerState) (h : 1 ≤ countWaiting ws) :
    (ThreadPool.scheduleAndGetFuture s id).signals = [Signal.notifyOne] ∧
    (ThreadPool.schedule s id).2 = [Signal.notifyOne] ∧
    wokenBy Signal.notifyOne ws = 1 ∧
    (∀ ws2, wokenBy Signal.notifyOne ws2 ≤ 1) ∧
    Signal.notifyOne ≠ Signal.notifyAll := by
  refine ⟨rfl, rfl, ?_, fun ws2 => ?_, by decide⟩
  · simp only [wokenBy]
    omega
  · simp only [wokenBy]
    exact Nat.min_le_left 1 _

/-- Witness for C6 with one waiting and one executing worker. -/
theorem c6_enqueue_wakes_one_witness :
    (ThreadPool.scheduleAndGetFuture
      { num_workers_ := 2, exit_ := false, work_ := [],
        workers_ := [.waiting, .executing 0] } 3).signals
      = [Signal.notifyOne] ∧
    (ThreadPool.schedule
      { num_workers_ := 2, exit_ := false, work_ := [],
        workers_ := [.waiting, .executing 0] } 3).2
      = [Signal.notifyOne] ∧
    wokenBy Signal.notifyOne [.waiting, .executing 0] = 1 ∧
    (∀ ws2, wokenBy Signal.notifyOne ws2 ≤ 1) ∧
    Signal.notifyOne ≠ Signal.notifyAll :=
  c6_enqueue_wakes_one
    { num_workers_ := 2, exit_ := false, work_ := [],
      workers_ := [.waiting, .executing 0] } 3
    [.waiting, .executing 0] (by decide)

/-- Claim C7: the wrapped work item of a result-bearing submission, run once
on a worker, computes the function's value and writes it into the empty
result slot (exactly one write — a second write attempt on the now-filled
slot is rejected by the promise); the void specialization runs the function
for its effect and then fills the slot with the unit "no value produced"
signal, so both variants leave the slot in the same filled state. -/
theorem c7_wrapper_computes_and_writes_once {E E2 V S : Type}
    (func : Unit → Except E V) (v : V) (hf : func () = Except.ok v)
    (eff : S → Except E2 S) (st st2 : S) (he : eff st = Except.ok st2) :
    FuncWrapper.getWrapped func Slot.empty
      = (WrapOutcome.normal, Slot.filled v) ∧
    (FuncWrapper.getWrapped func (Slot.filled v)).1
      = WrapOutcome.alreadySatisfied ∧
    FuncWrapperVoid.getWrapped eff st Slot.empty
      = (WrapOutcome.normal, st2, Slot.filled ()) ∧
    (FuncWrapperVoid.getWrapped eff st (Slot.filled ())).1
      = WrapOutcome.alreadySatisfied := by
  refine ⟨?_, ?_, ?_, ?_⟩ <;>
    simp [FuncWrapper.getWrapped, FuncWrapperVoid.getWrapped, hf, he]

/-- Witness for C7 at a concrete value-returning function and a concrete
effectful void function. -/
theorem c7_wrapper_computes_and_writes_once_witness :
    FuncWrapper.getWrapped (fun _ => (Except.ok 5 : Except Unit Nat))
      Slot.empty = (WrapOutcome.normal, Slot.filled 5) ∧
    (FuncWrapper.getWrapped (fun _ => (Except.ok 5 : Except Unit Nat))
      (Slot.filled 5)).1 = WrapOutcome.alreadySatisfied ∧
    FuncWrapperVoid.getWrapped
      (fun n => (Except.ok (n + 1) : Except Unit Nat)) 0 Slot.empty
      = (WrapOutcome.normal, 1, Slot.filled ()) ∧
    (FuncWrapperVoid.getWrapped
      (fun n => (Except.ok (n + 1) : Except Unit Nat)) 0
      (Slot.filled ())).1 = WrapOutcome.alreadySatisfied :=
  c7_wrapper_computes_and_writes_once
    (fun _ => Except.ok 5) 5 rfl (fun n => Except.ok (n + 1)) 0 1 rfl

/-- Claim C8: in `ScheduleAndGetFuture` the future is obtained from the
promise strictly before the wrapped item is pushed onto the queue, and the
returned handle is valid and bound to the very slot the enqueued item's
closure writes (both are slot `id`, and the enqueued item is the last queue
entry). -/
theorem c8_future_bound_before_enqueue (s : PoolCore) (id : Nat) :
    (ThreadPool.scheduleAndGetFuture s id).events.indexOf Ev.getFuture
      < (ThreadPool.scheduleAndGetFuture s id).events.indexOf Ev.enqueue ∧
    (ThreadPool.scheduleAndGetFuture s id).future.valid = true ∧
    (ThreadPool.scheduleAndGetFuture s id).future.slotId = id ∧
    (ThreadPool.scheduleAndGetFuture s id).pool.work_.getLast?
      = some id := by
  refine ⟨of_decide_eq_true rfl, rfl, rfl, ?_⟩
  simp [ThreadPool.scheduleAndGetFuture]

/-- Claim C10: one call to `ScheduleAndGetFuture` appends exactly one work
item at the back of the queue (length grows by one) and leaves the shutdown
flag, the worker count and the worker threads untouched. -/
theorem c10_schedule_frame (s : PoolCore) (id : Nat) :
    (ThreadPool.scheduleAndGetFuture s id).pool.work_ = s.work_ ++ [id] ∧
    (ThreadPool.scheduleAndGetFuture s id).pool.work_.length
      = s.work_.length + 1 ∧
    (ThreadPool.scheduleAndGetFuture s id).pool.exit_ = s.exit_ ∧
    (ThreadPool.scheduleAndGetFuture s id).pool.num_workers_
      = s.num_workers_ ∧
    (ThreadPool.scheduleAndGetFuture s id).pool.workers_ = s.workers_ :=
  ⟨rfl, by simp [ThreadPool.scheduleAndGetFuture], rfl, rfl, rfl⟩

end ThreadPoolSpec
